import Mathlib

/-!
Verification of the Footprint Deduplication Engine of the
interagency-tracking-system repository.

The development shallowly embeds the parts of the code that the claims
are about:

* `src/utils/concurrent_join.py` (`concurrent_join`): the chunked
  concurrent spatial join, modelled as a function over the list of
  eventual worker outcomes.
* `src/process/footprint.py` and `src/process/footprint_nop.py`
  (`update_pt`, `update_ln`, `update_poly`, `buffer_overreport_poly`,
  `remove_duplicates`, `get_NOP_recur`, `get_footprint_p2`): the
  geometry normalizer, duplicate removal, recursive decomposition and
  the planar-subdivision resolver.

Geometry is embedded at the level of abstraction each claim needs:

* numeric buffering logic is embedded over an arbitrary linear ordered
  field `K`, with `numpy.sqrt` and `math.pi` passed in as an explicit
  numeric model, keeping every definition computable;
* the overlay and arrangement pipelines are embedded over sets of
  abstract unit cells (`Finset Nat`, or canonical `List Nat` where an
  enumeration is needed), where intersection, difference, union and
  area (number of cells) are exact;
* ring geometry is embedded as vertex lists, with the shapely
  `normalize` canonicalization modelled as the lexicographically least
  cyclic rotation or reversed rotation of the vertex list, and
  `shapely.affinity.scale` modelled by its documented semantics
  (the default origin is the center of the bounding box).

The file is organized as definitions first, then theorems.
-/

/-! # Definitions -/

/-! ## Chunked Concurrent Join (src/utils/concurrent_join.py) -/

/-- Final state of one call of `concurrent_join` (lines 56-92 of
`src/utils/concurrent_join.py`): the value handed back to the caller,
the final value of the local variable `combined_result`, and whether
the `except` branch that logs a critical error was taken. -/
structure JoinRunResult (G : Type) where
  returned : Option G
  combinedResult : Option G
  criticalErrorLogged : Bool
  deriving Repr, DecidableEq

/-- The merge loop of `concurrent_join` (lines 77-84): `combined_result`
starts as `None` and is reassigned only inside `if combined_result:`,
i.e. only when it is already truthy.  `read` models
`gpd.read_file(f, layer="data")` and `concatG` models `pd.concat`. -/
def mergeCombined {F G : Type} (read : F → G) (concatG : G → G → G)
    (files : List F) : Option G :=
  files.foldl
    (fun acc f =>
      match acc with
      | some r => some (concatG r (read f))
      | none => none)
    none

/-- Whether an eventual worker outcome is an exception. -/
def outcomeIsError {F : Type} : Except String F → Bool
  | .error _ => true
  | .ok _ => false

/-- Model of `concurrent_join` (lines 56-92 of
`src/utils/concurrent_join.py`).  Each element of `futures` is the
eventual outcome of one chunk worker: `.ok file` when
`perform_spatial_join` wrote its partial result file, `.error e` when
it raised.  The first loop (lines 66-74) appends to the unused local
`results` and swallows per-future timeouts, so it does not affect the
final state.  The comprehension `result_files = [future.result() for
future in futures]` (line 75) re-raises the exception of any failed
worker, which jumps to the `except` branch (line 86) before
`combined_result` is ever bound; otherwise the merge loop of
`mergeCombined` runs.  The function body has no `return` statement, so
the value handed to the caller is `None` on every path. -/
def concurrent_join {F G : Type} (read : F → G) (concatG : G → G → G)
    (futures : List (Except String F)) : JoinRunResult G :=
  if futures.any outcomeIsError then
    { returned := none, combinedResult := none, criticalErrorLogged := true }
  else
    { returned := none,
      combinedResult :=
        mergeCombined read concatG (futures.filterMap Except.toOption),
      criticalErrorLogged := false }

/-! ## Geometry Normalizer: points and lines
(`update_pt`, `update_ln`, `get_max_treatment` in `src/process/footprint.py`
lines 50-150 and `src/process/footprint_nop.py` lines 29-158; the two
copies are textually identical up to the polygon-scaling lines).

Scalars are taken in an arbitrary linear ordered field `K`; the numeric
functions the source gets from numpy and math are passed in explicitly
as a `NumModel`, keeping every definition computable.  `numpy.sqrt`
returns NaN on negative input, modelled by `Option`. -/

/-- Numeric model: `npSqrt` models `numpy.sqrt` (`none` models NaN) and
`pi` models `math.pi`. -/
structure NumModel (K : Type) where
  npSqrt : K → Option K
  pi : K

/-- The constant `4046.86` (square meters per acre) used in the buffer
formulas of `update_pt` and `update_ln`. -/
def acreSqM (K : Type) [DivisionRing K] : K := 404686 / 100

/-- Point geometry: the original point, or the shapely buffer of the
point (a disc with the given radius). -/
inductive PtGeom (K : Type) where
  | point : PtGeom K
  | disc (radius : K) : PtGeom K
  deriving DecidableEq

/-- Area of a point-layer geometry, given the value of pi; the disc
produced by the shapely buffer call is modelled as an ideal circle. -/
def ptGeomArea {K : Type} [Field K] (piK : K) : PtGeom K → K
  | .point => 0
  | .disc r => piK * r ^ 2

/-- One row of the enriched points layer: the columns `update_pt`
touches, plus a row id.  A `none` quantity models a null/NaN
`ACTIVITY_QUANTITY` (pandas `notna` is false). -/
structure PtRow (K : Type) where
  rid : Nat
  tid : String
  quantity : Option K
  uom : String
  counts : String
  geom : PtGeom K
  deriving DecidableEq

/-- The `BufferMeters` column of `update_pt` (lines 55-62 of
`src/process/footprint.py`): `sqrt(ACTIVITY_QUANTITY * 4046.86 / pi)`
for rows with non-null quantity and `ACTIVITY_UOM == AC`, else unset. -/
def ptBufferMeters {K : Type} [LinearOrderedField K] (M : NumModel K)
    (r : PtRow K) : Option K :=
  match r.quantity with
  | none => none
  | some q => if r.uom = "AC" then M.npSqrt (q * acreSqM K / M.pi) else none

/-- `mask2` of `update_pt` (line 65): `COUNTS_TO_MAS == YES` and
`BufferMeters.notna()`. -/
def ptMask2 {K : Type} [LinearOrderedField K] (M : NumModel K)
    (r : PtRow K) : Bool :=
  decide (r.counts = "YES") && (ptBufferMeters M r).isSome

/-- The positivity filter of `update_pt` (line 70): `BufferMeters > 0`. -/
def ptPositive {K : Type} [LinearOrderedField K] (M : NumModel K)
    (r : PtRow K) : Bool :=
  match ptBufferMeters M r with
  | some b => decide (0 < b)
  | none => false

/-- The buffered version of a selected point row (lines 74-81). -/
def ptBuffered {K : Type} [LinearOrderedField K] (M : NumModel K)
    (r : PtRow K) : PtRow K :=
  { r with geom := PtGeom.disc ((ptBufferMeters M r).getD 0) }

/-- Model of `update_pt` (lines 50-83 of `src/process/footprint.py`):
filter to `mask2`, filter to `BufferMeters > 0`, then replace each
geometry by the buffer of the point. -/
def update_pt {K : Type} [LinearOrderedField K] (M : NumModel K)
    (rows : List (PtRow K)) : List (PtRow K) :=
  (((rows.filter (ptMask2 M)).filter (ptPositive M)).map (ptBuffered M))

/-- Line geometry: the original line (of the given length), or the
shapely flat-capped buffer of a line with the given half-width. -/
inductive LnGeom (K : Type) where
  | line (len : K) : LnGeom K
  | flatBuf (len : K) (halfWidth : K) : LnGeom K
  deriving DecidableEq

/-- Model of `geometry.length` for a line-layer geometry. -/
def lnGeomLength {K : Type} : LnGeom K → K
  | .line L => L
  | .flatBuf L _ => L

/-- Area of a line-layer geometry; the flat-capped buffer of a (simple,
straight) line of length `L` with half-width `w` has area `2 * w * L`. -/
def lnGeomArea {K : Type} [Field K] : LnGeom K → K
  | .line _ => 0
  | .flatBuf L w => 2 * w * L

/-- One row of the enriched lines layer: the columns `update_ln`
touches, plus a row id. -/
structure LnRow (K : Type) where
  rid : Nat
  tid : String
  year : String
  quantity : Option K
  uom : String
  counts : String
  source : String
  geom : LnGeom K
  deriving DecidableEq

/-- `mask1` of `update_ln` (lines 103-110): non-null quantity,
case-insensitive `ACTIVITY_UOM == AC`, and positive geometric length. -/
def lnMask1 {K : Type} [LinearOrderedField K] (r : LnRow K) : Bool :=
  r.quantity.isSome && decide (r.uom.toUpper = "AC") &&
    decide (0 < lnGeomLength r.geom)

/-- The `BufferMeters` column of `update_ln` (lines 117-121):
`ACTIVITY_QUANTITY * 4046.86 / length / 2` on `mask1` rows, else unset. -/
def lnBufferMeters {K : Type} [LinearOrderedField K] (r : LnRow K) :
    Option K :=
  if lnMask1 r then
    some (r.quantity.getD 0 * acreSqM K / lnGeomLength r.geom / 2)
  else none

/-- `condition3` of `update_ln` (line 124): `COUNTS_TO_MAS == YES` and
`BufferMeters.notna()`. -/
def lnCond3 {K : Type} [LinearOrderedField K] (r : LnRow K) : Bool :=
  decide (r.counts = "YES") && (lnBufferMeters r).isSome

/-- `condition4` of `update_ln` (line 127): not
(`BufferMeters >= 200` and `Source == CalTrans`); a pandas comparison
of an unset `BufferMeters` with 200 is false. -/
def lnCond4 {K : Type} [LinearOrderedField K] (r : LnRow K) : Bool :=
  !((match lnBufferMeters r with
     | some b => decide (200 ≤ b)
     | none => false) && decide (r.source = "CalTrans"))

/-- `ACTIVITY_QUANTITY` as used by the `get_max_treatment` aggregation. -/
def qtyVal {K : Type} [LinearOrderedField K] (r : LnRow K) : K :=
  r.quantity.getD 0

/-- Whether the row at index `i` is the first row of its
`(TRMTID_USER, Year_txt)` group attaining the group maximum of
`ACTIVITY_QUANTITY`, which is the row `groupby(...).idxmax()` selects. -/
def isFirstGroupMax {K : Type} [LinearOrderedField K] (l : List (LnRow K))
    (i : Nat) (r : LnRow K) : Bool :=
  l.enum.all (fun js =>
    !(decide (js.2.tid = r.tid) && decide (js.2.year = r.year)) ||
      (decide (qtyVal js.2 < qtyVal r) ||
        (decide (qtyVal js.2 = qtyVal r) && decide (i ≤ js.1))))

/-- Filter a list by a predicate that also sees the element index. -/
def filterIdx {A : Type} (p : Nat → A → Bool) : Nat → List A → List A
  | _, [] => []
  | i, a :: as =>
    if p i a then a :: filterIdx p (i + 1) as else filterIdx p (i + 1) as

/-- Model of `get_max_treatment` (lines 29-34 of
`src/process/footprint_nop.py`): per `(TRMTID_USER, Year_txt)` group,
keep only the first row attaining the maximum `ACTIVITY_QUANTITY`. -/
def get_max_treatment {K : Type} [LinearOrderedField K]
    (gdf : List (LnRow K)) : List (LnRow K) :=
  filterIdx (fun i r => isFirstGroupMax gdf i r) 0 gdf

/-- The buffered version of a selected line row (lines 140-147):
geometry replaced by the flat-capped buffer of the line. -/
def lnBuffered {K : Type} [LinearOrderedField K] (r : LnRow K) : LnRow K :=
  { r with
    geom := LnGeom.flatBuf (lnGeomLength r.geom) ((lnBufferMeters r).getD 0) }

/-- The rows of `selected_lines` after `mask2 = condition3 & condition4`
(lines 130-131). -/
def lnSelected {K : Type} [LinearOrderedField K] (rows : List (LnRow K)) :
    List (LnRow K) :=
  rows.filter (fun r => lnCond3 r && lnCond4 r)

/-- Model of `update_ln` (lines 86-150 of `src/process/footprint.py`):
if no row passes `mask1`, return the empty frame (lines 113-115);
otherwise filter by `condition3` and `condition4`, reduce
`Source == CALTRANS` rows to the per-treatment maximum quantity row
(lines 133-136), and buffer every surviving line. -/
def update_ln {K : Type} [LinearOrderedField K] (rows : List (LnRow K)) :
    List (LnRow K) :=
  if rows.all (fun r => !lnMask1 r) then []
  else
    ((lnSelected rows).filter (fun r => !decide (r.source = "CALTRANS")) ++
        get_max_treatment
          ((lnSelected rows).filter (fun r => decide (r.source = "CALTRANS")))).map
      lnBuffered

/-- A numeric model over the rationals used for concrete runs: a square
root stand-in defined at the inputs the runs use (it returns the exact
nonnegative square root where one is rational and defined, and is
otherwise undefined, like NaN), with a stand-in positive value for pi.
The unit-conversion cancellation proved about the buffering logic holds
for every positive value of pi, so a rational stand-in gives honest
concrete instances. -/
def sqrtModelQ : NumModel ℚ :=
  { npSqrt := fun x => if x = 1 then some 1 else none, pi := 1 }

/-! ## Polygon scaling (`buffer_overreport_poly`, `update_poly`,
`src/process/footprint_nop.py` lines 36-55 and 161-191).

Vertices are rational points; a polygon is a vertex ring (or a list of
rings for a multipolygon).  `shapely.affinity.scale(geom, xfact, yfact)`
scales about its default origin, the keyword `center`, which the
shapely documentation defines as the center of the 2D bounding box (not
the centroid).  `numpy.sqrt` is passed in as a function argument `sq`. -/

/-- A planar point with rational coordinates. -/
abbrev Pt2 := ℚ × ℚ

/-- Affine scaling of a point about an origin by the same factor in
both axes, the transformation applied by `shapely.affinity.scale`. -/
def scalePoint (origin : Pt2) (f : ℚ) (p : Pt2) : Pt2 :=
  (origin.1 + f * (p.1 - origin.1), origin.2 + f * (p.2 - origin.2))

/-- The center of the 2D bounding box of a ring: the shapely default
scaling origin (keyword `center`). -/
def bboxCenter (ring : List Pt2) : Pt2 :=
  match ring with
  | [] => (0, 0)
  | p :: ps =>
    ((ps.foldl (fun m q => min m q.1) p.1 + ps.foldl (fun m q => max m q.1) p.1) / 2,
      (ps.foldl (fun m q => min m q.2) p.2 + ps.foldl (fun m q => max m q.2) p.2) / 2)

/-- `shapely.affinity.scale` with equal x and y factors and the default
origin, applied to one ring. -/
def affinityScaleRing (f : ℚ) (ring : List Pt2) : List Pt2 :=
  ring.map (scalePoint (bboxCenter ring) f)

/-- Polygon or multipolygon geometry as vertex rings (holes are not
relevant to the claims and are omitted). -/
inductive PolyGeom where
  | poly (ring : List Pt2)
  | multi (rings : List (List Pt2))
  deriving DecidableEq

/-- Model of `buffer_overreport_poly` (lines 36-55 of
`src/process/footprint_nop.py`): if `ACRE_RATIO <= 1` the geometry is
returned unchanged; otherwise a `Polygon` is scaled by
`sqrt(ACRE_RATIO)` in both axes about the shapely default origin, and
each part of a `MultiPolygon` is scaled the same way about its own
default origin.  `sq` is the `numpy.sqrt` function. -/
def buffer_overreport_poly (sq : ℚ → ℚ) (acreRatio : ℚ) (g : PolyGeom) :
    PolyGeom :=
  if acreRatio ≤ 1 then g
  else
    match g with
    | .poly ring => .poly (affinityScaleRing (sq acreRatio) ring)
    | .multi rings => .multi (rings.map (affinityScaleRing (sq acreRatio)))

/-- Twice the signed area contribution of the triangle `p0 a b`. -/
def cross2 (p0 a b : Pt2) : ℚ :=
  (a.1 - p0.1) * (b.2 - p0.2) - (a.2 - p0.2) * (b.1 - p0.1)

/-- Fan decomposition of twice the signed ring area, relative to the
first vertex. -/
def fanSum (p0 : Pt2) : Pt2 → List Pt2 → ℚ
  | _, [] => 0
  | prev, a :: rest => cross2 p0 prev a + fanSum p0 a rest

/-- Twice the signed area of a ring (the shoelace value, written as a
fan from the first vertex). -/
def ringArea2 : List Pt2 → ℚ
  | p0 :: a :: rest => fanSum p0 a rest
  | _ => 0

/-- Model of `geometry.area` for the polygon layer: absolute ring area,
summed over the parts of a multipolygon. -/
def polyArea : PolyGeom → ℚ
  | .poly ring => |ringArea2 ring| / 2
  | .multi rings => (rings.map (fun ring => |ringArea2 ring| / 2)).sum

/-- The pairs of consecutive vertices of a ring, cyclically. -/
def cyclicPairs (ring : List Pt2) : List (Pt2 × Pt2) :=
  match ring with
  | [] => []
  | p :: ps => ring.zip (ps ++ [p])

/-- The centroid of a polygon ring by the standard shoelace centroid
formula.  This is the definition the words of the spec call for
(scaling "about its own centroid"); it is compared against the source
call `affinity.scale(...)`, whose default origin is the bounding-box
center. -/
def ringCentroid (ring : List Pt2) : Pt2 :=
  let ps := cyclicPairs ring
  let a2 := (ps.map (fun pq => pq.1.1 * pq.2.2 - pq.2.1 * pq.1.2)).sum
  ((ps.map (fun pq => (pq.1.1 + pq.2.1) * (pq.1.1 * pq.2.2 - pq.2.1 * pq.1.2))).sum
      / (3 * a2),
    (ps.map (fun pq => (pq.1.2 + pq.2.2) * (pq.1.1 * pq.2.2 - pq.2.1 * pq.1.2))).sum
      / (3 * a2))

/-- One ring scaled about its centroid (what the spec sentence
describes). -/
def centroidScaleRing (f : ℚ) (ring : List Pt2) : List Pt2 :=
  ring.map (scalePoint (ringCentroid ring) f)

/-- Definition following the words of the spec for C5: polygons whose
reported quantity exceeds the true geometric area are scaled about
their own centroid (each part of a multipolygon about its own
centroid) by `sqrt(ACRE_RATIO)`. -/
def spec_scale_about_centroid (sq : ℚ → ℚ) (acreRatio : ℚ) (g : PolyGeom) :
    PolyGeom :=
  if acreRatio ≤ 1 then g
  else
    match g with
    | .poly ring => .poly (centroidScaleRing (sq acreRatio) ring)
    | .multi rings => .multi (rings.map (centroidScaleRing (sq acreRatio)))

/-- A square-root stand-in defined at the input 4 (with value 2), used
for concrete runs of the polygon scaling. -/
def sqrtAtFour : ℚ → ℚ := fun x => if x = 4 then 2 else 0

/-- The triangle used in concrete polygon-scaling runs; its centroid
(4/3, 4/3) differs from its bounding-box center (2, 2). -/
def triangleEx : List Pt2 := [(0, 0), (4, 0), (0, 4)]

/-! ## Duplicate removal (`remove_duplicates`,
`src/process/footprint.py` lines 189-193 and
`src/process/footprint_nop.py` lines 238-242).

A geometry is a vertex ring over integer lexicographic points.  The
source computes `geom.normalize().wkb` for each row and keeps the rows
whose serialization has not appeared before.  shapely `normalize`
rewrites a ring to a canonical start vertex and orientation, so two
rings are normalize-equal exactly when one is a cyclic rotation of the
other or of its reversal.  This canonical form is modelled as the
lexicographically least element among all cyclic rotations of the ring
and of its reversal (`wkb` serialization is injective, so the
canonical list itself serves as the key). -/

/-- Integer planar points, ordered lexicographically. -/
abbrev PtL := Lex (ℤ × ℤ)

/-- Model of `geom.normalize().wkb`: the least cyclic rotation of the
ring or of its reversal, in the lexicographic list order. -/
def canonRing (r : List PtL) : WithTop (List PtL) :=
  (r.cyclicPermutations ++ r.reverse.cyclicPermutations).minimum

/-- One feature of the collection passed to `remove_duplicates`. -/
structure RingFeat where
  tid : String
  ring : List PtL
  deriving DecidableEq

/-- The pass of `remove_duplicates` over the rows: pandas `duplicated`
marks a row whose key already appeared earlier, and the source keeps
the unmarked rows. -/
def removeDupGo (seen : List (WithTop (List PtL))) :
    List RingFeat → List RingFeat
  | [] => []
  | f :: rest =>
    if canonRing f.ring ∈ seen then removeDupGo seen rest
    else f :: removeDupGo (canonRing f.ring :: seen) rest

/-- Model of `remove_duplicates` (lines 238-242 of
`src/process/footprint_nop.py`): keep only the first occurrence of
each normalized geometry. -/
def remove_duplicates (gdf : List RingFeat) : List RingFeat :=
  removeDupGo [] gdf

/-- Translation of a point by an integer offset. -/
def shiftPt (d : ℤ × ℤ) (p : PtL) : PtL :=
  toLex (ofLex p + d)

/-- Translation of a whole ring by an integer offset. -/
def shiftRing (d : ℤ × ℤ) (r : List PtL) : List PtL :=
  r.map (shiftPt d)

/-! ## Recursive NOP decomposition (`get_NOP_recur`,
`src/process/footprint_nop.py` lines 245-262).

Features carry a geometry type (the pandas `geom_type` value) and a
cell-set geometry.  `gpd.overlay` with `how=intersection` pairs each
left row with each right row it intersects; with `how=difference` it
subtracts the union of the right geometries from each left row;
empty results are dropped.  In the cell model every nonempty overlay
result is polygonal.  The recursion of the source has no structural
termination argument (it recurses on overlay outputs), so the
embedding carries explicit fuel; the fuel case is only reached below
the branch on `len(temp_nop) <= 1`, so terminal behavior is
fuel-independent. -/

/-- Geometry type of a feature (the pandas `geom_type` string). -/
inductive GType where
  | polygon
  | multiPolygon
  | lineString
  | point
  deriving DecidableEq, Repr

/-- A feature of the dissolved layer entering NOP decomposition. -/
structure Feat where
  tid : String
  gt : GType
  geom : Finset Nat
  deriving DecidableEq

instance : Inhabited Feat := ⟨⟨"", GType.polygon, ∅⟩⟩

/-- The `geom_type.isin([MultiPolygon, Polygon])` test. -/
def featIsPoly (f : Feat) : Bool :=
  match f.gt with
  | .polygon => true
  | .multiPolygon => true
  | _ => false

/-- `gpd.overlay(gdf1, gdf2, how=intersection)`: one output row per
intersecting pair of input rows, carrying the intersection geometry
(left attributes kept). -/
def overlayIntersection (l1 l2 : List Feat) : List Feat :=
  l1.flatMap (fun a =>
    l2.filterMap (fun b =>
      if (a.geom ∩ b.geom).Nonempty then
        some { a with geom := a.geom ∩ b.geom, gt := GType.polygon }
      else none))

/-- The union of the geometries of a collection. -/
def unionGeoms (l : List Feat) : Finset Nat :=
  l.foldr (fun f acc => f.geom ∪ acc) ∅

/-- `gpd.overlay(gdf1, gdf2, how=difference)`: each left row minus the
union of the right geometries, empty results dropped. -/
def overlayDifference (l1 l2 : List Feat) : List Feat :=
  l1.filterMap (fun a =>
    let d := a.geom \ unionGeoms l2
    if d.Nonempty then some { a with geom := d, gt := GType.polygon }
    else none)

/-- `temp_nop` of `get_NOP_recur` (lines 246-257): filter both inputs
to polygonal rows, overlay, filter the overlay outputs to polygonal
rows, and concatenate intersection with difference. -/
def tempNOP (gdf1 gdf2 : List Feat) : List Feat :=
  let g1 := gdf1.filter featIsPoly
  let g2 := gdf2.filter featIsPoly
  (overlayIntersection g1 g2).filter featIsPoly ++
    (overlayDifference g1 g2).filter featIsPoly

/-- Return value of `get_NOP_recur`: a Python list whose elements are
either GeoDataFrames or nested lists of the same shape. -/
inductive NOPResult where
  | frame (g : List Feat)
  | nested (l : List NOPResult)

/-- Model of `get_NOP_recur` (lines 245-262 of
`src/process/footprint_nop.py`): if `temp_nop` has at most one row,
return `[gdf1]` with `gdf1` already filtered to polygonal rows
(line 246); otherwise recurse once per row of `temp_nop`, with that
row as the new target and the remaining rows as its neighbor set, and
return the un-flattened list of recursive results (the caller
`get_NOP_mp` flattens).  `fuel` bounds the recursion depth; it is
consumed only on the recursive branch. -/
def get_NOP_recur (fuel : Nat) (gdf1 gdf2 : List Feat) : NOPResult :=
  let temp := tempNOP gdf1 gdf2
  if temp.length ≤ 1 then
    NOPResult.nested [NOPResult.frame (gdf1.filter featIsPoly)]
  else
    match fuel with
    | 0 => NOPResult.nested []
    | fuel' + 1 =>
      NOPResult.nested
        ((List.range temp.length).map (fun i =>
          get_NOP_recur fuel' [temp.getD i default] (temp.eraseIdx i)))

mutual

/-- The GeoDataFrames at the leaves of a `get_NOP_recur` result. -/
def NOPLeaves : NOPResult → List (List Feat)
  | .frame g => [g]
  | .nested l => NOPLeavesList l

/-- `NOPLeaves` over a list of results. -/
def NOPLeavesList : List NOPResult → List (List Feat)
  | [] => []
  | r :: rest => NOPLeaves r ++ NOPLeavesList rest

end

/-! ## Planar-subdivision resolver (`get_footprint_p2`,
`src/process/footprint.py` lines 318-337).

Per year, the function reads back the layers written by part one:
`spaghetti` (the arcpy `FeatureToPolygon` faces of the boundary
linework of the dissolved treatments), `meatball` (a representative
interior point of each dissolved treatment) and `original` (the
dissolved treatments themselves), plus the nonspatial `timber` rows.
Geometry is a canonical list of unit cells; `FeatureToPolygon` is
external (arcpy) and is modelled by its contract: the minimal faces of
the arrangement, i.e. the classes of covered cells sharing the same
covering signature.  The representative point is the least cell of a
geometry.  Quantities live in an arbitrary linear order `Q`. -/

/-- A row of the dissolved (or timber) layer: treatment id, reported
quantity and cell geometry. -/
structure DisFeat (Q : Type) where
  tid : String
  qty : Q
  geom : List Nat
  deriving DecidableEq, Repr

/-- The covering signature of a cell: which input geometries contain
it. -/
def sigOf (geoms : List (List Nat)) (c : Nat) : List Bool :=
  geoms.map (fun g => g.contains c)

/-- Model of arcpy `FeatureToPolygon` (the `spaghetti` layer, lines
303-316): the minimal faces of the planar subdivision induced by the
input geometries, as the classes of covered cells with equal covering
signature. -/
def featureToPolygon (geoms : List (List Nat)) : List (List Nat) :=
  let u := (geoms.foldr (· ++ ·) []).dedup
  (u.map (fun c => u.filter (fun c' => sigOf geoms c' = sigOf geoms c))).dedup

/-- The representative interior point of a dissolved treatment (the
`meatball` layer): a cell of its geometry. -/
def repPoint (g : List Nat) : Option Nat :=
  g.min?

/-- The rows of `spaghetti.sjoin(dissolved_point, how=left,
predicate=intersects)` after `dropna()` (lines 329-331): for each face,
one row per dissolved treatment whose representative point lies in the
face; faces without any point produce a null row that `dropna`
removes. -/
def footprintTemp {Q : Type} (faces : List (List Nat))
    (points : List (DisFeat Q)) : List (DisFeat Q) :=
  faces.flatMap (fun face =>
    points.filter (fun p =>
      match repPoint p.geom with
      | some c => face.contains c
      | none => false))

/-- Stable insertion of a row into a list sorted by ascending
quantity. -/
def insertByQty {Q : Type} [LinearOrder Q] (r : DisFeat Q) :
    List (DisFeat Q) → List (DisFeat Q)
  | [] => [r]
  | s :: rest =>
    if r.qty ≤ s.qty then r :: s :: rest else s :: insertByQty r rest

/-- `sort_values(ACTIVITY_QUANTITY)`: sort by ascending quantity. -/
def sortByQty {Q : Type} [LinearOrder Q] :
    List (DisFeat Q) → List (DisFeat Q)
  | [] => []
  | r :: rest => insertByQty r (sortByQty rest)

/-- `drop_duplicates(TRMTID_USER, keep=last)`: keep the last row of
each treatment id, in order. -/
def dropDupTidKeepLast {Q : Type} :
    List (DisFeat Q) → List (DisFeat Q)
  | [] => []
  | r :: rest =>
    if rest.any (fun s => decide (s.tid = r.tid)) then dropDupTidKeepLast rest
    else r :: dropDupTidKeepLast rest

/-- Model of `get_footprint_p2` for one year (lines 318-337 of
`src/process/footprint.py`): build the faces and the representative
points from the dissolved layer, spatial-join faces to points, drop
faceless rows, sort by quantity, de-duplicate on `TRMTID_USER` keeping
the last row, look each surviving treatment id up in the `original`
dissolved layer (taking its original geometry), and append the timber
rows. -/
def get_footprint_p2 {Q : Type} [LinearOrder Q]
    (dissolved timber : List (DisFeat Q)) : List (DisFeat Q) :=
  let faces := featureToPolygon (dissolved.map DisFeat.geom)
  let temp := footprintTemp faces dissolved
  let survivors := dropDupTidKeepLast (sortByQty temp)
  let footprint :=
    survivors.filterMap (fun s =>
      dissolved.find? (fun d => decide (d.tid = s.tid)))
  footprint ++ timber

/-- A concrete eligible point row (quantity 100/404686 acres, unit AC,
counting toward MAS) used in witnesses. -/
def ptRowW : PtRow ℚ :=
  { rid := 0, tid := "T", quantity := some (100/404686), uom := "AC",
    counts := "YES", geom := PtGeom.point }

/-- A concrete eligible line row (quantity 1 acre, length 1 meter,
source WCB) used in witnesses. -/
def lnRowW : LnRow ℚ :=
  { rid := 1, tid := "T2", year := "2022", quantity := some 1, uom := "AC",
    counts := "YES", source := "WCB", geom := LnGeom.line 1 }

/-- A concrete CalTrans line row whose computed half-width 2023.43
exceeds 200, used in witnesses. -/
def lnRowCalTrans : LnRow ℚ :=
  { rid := 2, tid := "C1", year := "2022", quantity := some 1, uom := "AC",
    counts := "YES", source := "CalTrans", geom := LnGeom.line 1 }

/-- A concrete eligible line row with `Source = CALTRANS` (the value
the CalTrans enrichment stage writes), used in witnesses to exercise
the per-treatment maximum branch of `update_ln`. -/
def lnRowCALTRANS : LnRow ℚ :=
  { rid := 4, tid := "C2", year := "2022", quantity := some 1, uom := "AC",
    counts := "YES", source := "CALTRANS", geom := LnGeom.line 1 }

/-! # Theorems -/

/-! ## Chunked Concurrent Join -/

theorem mergeCombined_eq_none {F G : Type} (read : F → G)
    (concatG : G → G → G) (files : List F) :
    mergeCombined read concatG files = none := by
  induction files with
  | nil => rfl
  | cons f fs ih => simpa [mergeCombined] using ih

/-- C9: for every pair of inputs, `concurrent_join` delivers `None` to
its caller: the function body has no `return` statement, and the merge
accumulator `combined_result` is only concatenated onto when it is
already non-`None` (it starts as `None` and is never first assigned),
so the merged join result is never delivered in-process. -/
theorem concurrent_join_returns_none {F G : Type} (read : F → G)
    (concatG : G → G → G) (futures : List (Except String F)) :
    (concurrent_join read concatG futures).returned = none ∧
      (concurrent_join read concatG futures).combinedResult = none := by
  unfold concurrent_join
  by_cases h : futures.any outcomeIsError
  · simp [h]
  · simp [h, mergeCombined_eq_none]

/-- C4: evaluating `concurrent_join` at a run in which the first chunk
worker succeeds and the second raises.  The claim says the join still
completes and its merged output contains the partial result of every
successful chunk; instead the merged output is `None`, the run takes
the critical-error branch, and (third conjunct) even a fully
successful run merges nothing because the accumulator is never first
assigned.  This contradicts the intent visible in the first loop of
the source (lines 66-74), which logs and skips failed futures
precisely so that the join can continue with the remaining chunks. -/
theorem concurrent_join_failed_chunk_aborts_merge :
    (concurrent_join (fun s : String => [s]) (· ++ ·)
        [Except.ok "chunk1.gpkg", Except.error "worker raised"]).combinedResult
        = none ∧
      (concurrent_join (fun s : String => [s]) (· ++ ·)
        [Except.ok "chunk1.gpkg", Except.error "worker raised"]).criticalErrorLogged
        = true ∧
      (concurrent_join (fun s : String => [s]) (· ++ ·)
        [Except.ok "chunk1.gpkg", Except.ok "chunk2.gpkg"]).combinedResult
        = none := by
  decide

/-! ## Geometry Normalizer: helper lemmas -/

theorem acreSqM_pos {K : Type} [LinearOrderedField K] : 0 < acreSqM K := by
  norm_num [acreSqM]

theorem mem_filterIdx {A : Type} {p : Nat → A → Bool} :
    ∀ {i : Nat} {l : List A} {x : A}, x ∈ filterIdx p i l → x ∈ l := by
  intro i l
  induction l generalizing i with
  | nil => intro x h; simp [filterIdx] at h
  | cons a as ih =>
    intro x h
    by_cases hpa : p i a
    · simp only [filterIdx, hpa, if_true, List.mem_cons] at h
      rcases h with h | h
      · exact h ▸ List.mem_cons_self a as
      · exact List.mem_cons_of_mem a (ih h)
    · simp only [filterIdx, hpa, if_false, Bool.false_eq_true] at h
      exact List.mem_cons_of_mem a (ih h)

theorem lnMask1_of_bufferMeters_isSome {K : Type} [LinearOrderedField K]
    {r : LnRow K} (h : (lnBufferMeters r).isSome = true) :
    lnMask1 r = true := by
  by_cases hm : lnMask1 r
  · exact hm
  · rw [lnBufferMeters, if_neg hm] at h
    simp at h

theorem mem_update_pt_of {K : Type} [LinearOrderedField K]
    (M : NumModel K) {rows : List (PtRow K)} {r : PtRow K}
    (hr : r ∈ rows) (h2 : ptMask2 M r = true) (hp : ptPositive M r = true) :
    ptBuffered M r ∈ update_pt M rows := by
  unfold update_pt
  exact List.mem_map_of_mem _
    (List.mem_filter.mpr ⟨List.mem_filter.mpr ⟨hr, h2⟩, hp⟩)

theorem update_pt_mem_inv {K : Type} [LinearOrderedField K]
    {M : NumModel K} {rows : List (PtRow K)} {r' : PtRow K}
    (h : r' ∈ update_pt M rows) :
    ∃ r ∈ rows, r' = ptBuffered M r ∧ ptMask2 M r = true ∧
      ptPositive M r = true := by
  unfold update_pt at h
  rcases List.mem_map.mp h with ⟨r, hrm, rfl⟩
  rcases List.mem_filter.mp hrm with ⟨hsel, hp⟩
  rcases List.mem_filter.mp hsel with ⟨hrow, h2⟩
  exact ⟨r, hrow, rfl, h2, hp⟩

theorem mem_update_ln_of {K : Type} [LinearOrderedField K]
    {rows : List (LnRow K)} {r : LnRow K}
    (hr : r ∈ rows) (h3 : lnCond3 r = true) (h4 : lnCond4 r = true)
    (hsrc : r.source ≠ "CALTRANS") :
    lnBuffered r ∈ update_ln rows := by
  have hm1 : lnMask1 r = true :=
    lnMask1_of_bufferMeters_isSome (Bool.and_eq_true_iff.mp h3).2
  have hnot : ¬ rows.all (fun r => !lnMask1 r) = true := by
    intro hall
    have := List.all_eq_true.mp hall r hr
    simp [hm1] at this
  unfold update_ln
  rw [if_neg hnot]
  apply List.mem_map_of_mem
  apply List.mem_append_left
  refine List.mem_filter.mpr ⟨List.mem_filter.mpr ⟨hr, ?_⟩, ?_⟩
  · simp [h3, h4]
  · simp [hsrc]

theorem update_ln_mem_inv {K : Type} [LinearOrderedField K]
    {rows : List (LnRow K)} {r' : LnRow K}
    (h : r' ∈ update_ln rows) :
    ∃ r ∈ rows, r' = lnBuffered r ∧ lnCond3 r = true ∧
      lnCond4 r = true := by
  unfold update_ln at h
  by_cases hall : rows.all (fun r => !lnMask1 r) = true
  · rw [if_pos hall] at h
    simp at h
  · rw [if_neg hall] at h
    rcases List.mem_map.mp h with ⟨r, hrm, rfl⟩
    have hsel : r ∈ lnSelected rows := by
      rcases List.mem_append.mp hrm with hl | hcal
      · exact (List.mem_filter.mp hl).1
      · exact (List.mem_filter.mp (mem_filterIdx hcal)).1
    rcases List.mem_filter.mp hsel with ⟨hrow, hcond⟩
    rcases Bool.and_eq_true_iff.mp hcond with ⟨hc3, hc4⟩
    exact ⟨r, hrow, rfl, hc3, hc4⟩

theorem mem_update_ln_of_caltrans_max {K : Type} [LinearOrderedField K]
    {rows : List (LnRow K)} {r : LnRow K}
    (hr : r ∈ get_max_treatment ((lnSelected rows).filter
      (fun s => decide (s.source = "CALTRANS")))) :
    lnBuffered r ∈ update_ln rows := by
  have hsel : r ∈ lnSelected rows :=
    (List.mem_filter.mp (mem_filterIdx hr)).1
  rcases List.mem_filter.mp hsel with ⟨hrow, hcond⟩
  rcases Bool.and_eq_true_iff.mp hcond with ⟨h3, -⟩
  have hm1 : lnMask1 r = true :=
    lnMask1_of_bufferMeters_isSome (Bool.and_eq_true_iff.mp h3).2
  have hnot : ¬ rows.all (fun r => !lnMask1 r) = true := by
    intro hall
    have := List.all_eq_true.mp hall r hrow
    simp [hm1] at this
  unfold update_ln
  rw [if_neg hnot]
  exact List.mem_map_of_mem _ (List.mem_append_right _ hr)

/-! ## C2: quantity-buffering round trip -/

/-- C2 (amended): for every point record with positive quantity `q`,
unit `AC` and `COUNTS_TO_MAS = YES`, the normalizer replaces the point
with a circle of radius `sqrt(q * 4046.86 / pi)` whose area in acres
equals `q` exactly; for every line record with positive quantity `q`,
unit `AC` (case-insensitively), positive length `L` and
`COUNTS_TO_MAS = YES` that is not cut off as a wide CalTrans record
and is not reduced away by the CALTRANS per-treatment maximum (stated
as: the row either does not carry `Source = CALTRANS`, or it is kept
by the `get_max_treatment` reduction of the selected CALTRANS rows),
the normalizer replaces the line with a flat-capped buffer of
half-width
`q * 4046.86 / (L * 2)` whose area in acres equals `q` exactly.  The
square-root hypotheses state the defining property of `numpy.sqrt` at
the evaluated input. -/
theorem quantity_buffering_round_trip {K : Type} [LinearOrderedField K]
    (M : NumModel K) (hpi : 0 < M.pi) :
    (∀ (rows : List (PtRow K)) (r : PtRow K) (q b : K),
        r ∈ rows → r.quantity = some q → 0 < q → r.uom = "AC" →
        r.counts = "YES" →
        M.npSqrt (q * acreSqM K / M.pi) = some b → 0 ≤ b →
        b ^ 2 = q * acreSqM K / M.pi →
        { r with geom := PtGeom.disc b } ∈ update_pt M rows ∧
          ptGeomArea M.pi (PtGeom.disc b) / acreSqM K = q) ∧
    (∀ (rows : List (LnRow K)) (r : LnRow K) (q L : K),
        r ∈ rows → r.quantity = some q → 0 < q → r.uom.toUpper = "AC" →
        r.geom = LnGeom.line L → 0 < L → r.counts = "YES" →
        ¬(r.source = "CalTrans" ∧ 200 ≤ q * acreSqM K / L / 2) →
        (r.source ≠ "CALTRANS" ∨
          r ∈ get_max_treatment ((lnSelected rows).filter
            (fun s => decide (s.source = "CALTRANS")))) →
        { r with geom := LnGeom.flatBuf L (q * acreSqM K / L / 2) } ∈
            update_ln rows ∧
          lnGeomArea (LnGeom.flatBuf L (q * acreSqM K / L / 2)) / acreSqM K
            = q) := by
  have hane : acreSqM K ≠ 0 := ne_of_gt acreSqM_pos
  have hpne : M.pi ≠ 0 := ne_of_gt hpi
  constructor
  · intro rows r q b hr hq hq0 huom hc hsqv hb0 hb2
    have hbm : ptBufferMeters M r = some b := by
      simp only [ptBufferMeters, hq, huom, if_true]
      exact hsqv
    have harg : 0 < q * acreSqM K / M.pi :=
      div_pos (mul_pos hq0 acreSqM_pos) hpi
    have hbpos : 0 < b := by
      rcases hb0.lt_or_eq with h | h
      · exact h
      · exfalso
        rw [← h] at hb2
        rw [← hb2] at harg
        simp at harg
    have h2 : ptMask2 M r = true := by simp [ptMask2, hc, hbm]
    have hp : ptPositive M r = true := by simp [ptPositive, hbm, hbpos]
    have hbuf : ptBuffered M r = { r with geom := PtGeom.disc b } := by
      simp [ptBuffered, hbm]
    refine ⟨hbuf ▸ mem_update_pt_of M hr h2 hp, ?_⟩
    show M.pi * b ^ 2 / acreSqM K = q
    rw [hb2]
    field_simp
  · intro rows r q L hr hq hq0 huom hgeom hL hc hcut hsrc
    have hlen : lnGeomLength r.geom = L := by rw [hgeom]; rfl
    have hm1 : lnMask1 r = true := by
      simp [lnMask1, hq, huom, hlen, hL]
    have hbm : lnBufferMeters r = some (q * acreSqM K / L / 2) := by
      rw [lnBufferMeters, if_pos hm1, hq, hlen]
      simp
    have h3 : lnCond3 r = true := by simp [lnCond3, hc, hbm]
    have h4 : lnCond4 r = true := by
      simp only [lnCond4, hbm]
      by_cases hs : r.source = "CalTrans"
      · have hw : ¬ 200 ≤ q * acreSqM K / L / 2 := fun hw => hcut ⟨hs, hw⟩
        simp [hw]
      · simp [hs]
    have hbuf : lnBuffered r =
        { r with geom := LnGeom.flatBuf L (q * acreSqM K / L / 2) } := by
      simp [lnBuffered, hbm, hlen]
    refine ⟨?_, ?_⟩
    · rcases hsrc with hne | hmax
      · exact hbuf ▸ mem_update_ln_of hr h3 h4 hne
      · exact hbuf ▸ mem_update_ln_of_caltrans_max hmax
    · show 2 * (q * acreSqM K / L / 2) * L / acreSqM K = q
      field_simp
      ring

/-- C2 witness: the amended round trip evaluated at a concrete point
record (quantity 100/404686 acres, so that the stand-in square root is
defined) and a concrete line record (quantity 1 acre over a line of
length 1 meter), over the rational numeric model; the third conjunct
exercises the CALTRANS branch: an eligible `Source = CALTRANS` row
that is its own per-treatment maximum is kept and buffered. -/
theorem quantity_buffering_round_trip_witness :
    (({ rid := 0, tid := "T", quantity := some (100/404686), uom := "AC",
        counts := "YES", geom := PtGeom.disc 1 } : PtRow ℚ) ∈
        update_pt sqrtModelQ
          [({ rid := 0, tid := "T", quantity := some (100/404686),
              uom := "AC", counts := "YES",
              geom := PtGeom.point } : PtRow ℚ)] ∧
      ptGeomArea sqrtModelQ.pi (PtGeom.disc (1 : ℚ)) / acreSqM ℚ
        = 100/404686) ∧
    (({ rid := 1, tid := "T2", year := "2022", quantity := some 1,
        uom := "AC", counts := "YES", source := "WCB",
        geom := LnGeom.flatBuf 1 (1 * acreSqM ℚ / 1 / 2) } : LnRow ℚ) ∈
        update_ln
          [({ rid := 1, tid := "T2", year := "2022", quantity := some 1,
              uom := "AC", counts := "YES", source := "WCB",
              geom := LnGeom.line 1 } : LnRow ℚ)] ∧
      lnGeomArea (LnGeom.flatBuf (1 : ℚ) (1 * acreSqM ℚ / 1 / 2)) / acreSqM ℚ
        = 1) ∧
    ({ rid := 4, tid := "C2", year := "2022", quantity := some 1,
       uom := "AC", counts := "YES", source := "CALTRANS",
       geom := LnGeom.flatBuf 1 (1 * acreSqM ℚ / 1 / 2) } : LnRow ℚ) ∈
      update_ln [lnRowCALTRANS] := by
  have H := quantity_buffering_round_trip sqrtModelQ
    (by norm_num [sqrtModelQ])
  have hup : ("AC").toUpper = "AC" := by
    simp [String.toUpper, String.map_eq]
  refine ⟨H.1
      [({ rid := 0, tid := "T", quantity := some (100/404686), uom := "AC",
          counts := "YES", geom := PtGeom.point } : PtRow ℚ)]
      ({ rid := 0, tid := "T", quantity := some (100/404686), uom := "AC",
         counts := "YES", geom := PtGeom.point } : PtRow ℚ)
      (100/404686) 1 (by simp) rfl (by norm_num) rfl rfl
      (by norm_num [sqrtModelQ, acreSqM]) (by norm_num)
      (by norm_num [sqrtModelQ, acreSqM]), ?_, ?_⟩
  · exact H.2
      [({ rid := 1, tid := "T2", year := "2022", quantity := some 1,
          uom := "AC", counts := "YES", source := "WCB",
          geom := LnGeom.line 1 } : LnRow ℚ)]
      ({ rid := 1, tid := "T2", year := "2022", quantity := some 1,
         uom := "AC", counts := "YES", source := "WCB",
         geom := LnGeom.line 1 } : LnRow ℚ)
      1 1 (by simp) rfl (by norm_num) hup rfl (by norm_num) rfl
      (by rintro ⟨h, -⟩; simp at h) (Or.inl (by decide))
  · have hselC : (lnSelected [lnRowCALTRANS]).filter
        (fun s => decide (s.source = "CALTRANS")) = [lnRowCALTRANS] := by
      norm_num [lnSelected, lnCond3, lnCond4, lnBufferMeters, lnMask1, hup,
        lnGeomLength, lnRowCALTRANS, List.filter, acreSqM]
    have hmaxC : lnRowCALTRANS ∈ get_max_treatment
        ((lnSelected [lnRowCALTRANS]).filter
          (fun s => decide (s.source = "CALTRANS"))) := by
      rw [hselC]
      norm_num [get_max_treatment, filterIdx, isFirstGroupMax, List.enum,
        List.enumFrom, qtyVal, lnRowCALTRANS]
    exact (H.2 [lnRowCALTRANS] lnRowCALTRANS 1 1 (by simp) rfl (by norm_num)
      hup rfl (by norm_num) rfl
      (by rintro ⟨h, -⟩; simp [lnRowCALTRANS] at h) (Or.inr hmaxC)).1

/-- C2 counterexample: a point record with positive reported quantity
and unit AC but `COUNTS_TO_MAS = NO` is dropped entirely by
`update_pt` (the output collection is empty), not replaced with a
circle, so the claim as frozen (that every point record with positive
quantity in acres and unit AC is replaced with a circle) is false on
the code. -/
theorem update_pt_counts_to_mas_counterexample :
    update_pt sqrtModelQ
      [({ rid := 2, tid := "T3", quantity := some (100/404686), uom := "AC",
          counts := "NO", geom := PtGeom.point } : PtRow ℚ)] = [] := by
  norm_num [update_pt, ptMask2, List.filter]

/-! ## C8: handling of ineligible records -/

/-- C8 (amended): the Geometry Normalizer does not pass ineligible
records through; it drops them from its output.  Every record in the
output of `update_pt` stems from an input row with `COUNTS_TO_MAS =
YES`, a non-null strictly positive quantity and unit `AC` (so rows
with missing/NaN, zero or negative quantities, or a non-acres unit,
are removed, not passed through unchanged); every record in the output
of `update_ln` stems from an input row with `COUNTS_TO_MAS = YES`, a
non-null quantity, case-insensitive unit `AC` and strictly positive
geometric length (so zero-length lines, NaN quantities and non-acres
units are removed).  The square-root hypothesis states that
`numpy.sqrt` returns a positive value only on positive input. -/
theorem normalizer_output_only_eligible {K : Type} [LinearOrderedField K]
    (M : NumModel K) (hpi : 0 < M.pi)
    (hsq : ∀ x b, M.npSqrt x = some b → 0 < b → 0 < x) :
    (∀ (rows : List (PtRow K)) (r' : PtRow K), r' ∈ update_pt M rows →
      ∃ r ∈ rows, r' = ptBuffered M r ∧ r.counts = "YES" ∧
        ∃ q, r.quantity = some q ∧ r.uom = "AC" ∧ 0 < q) ∧
    (∀ (rows : List (LnRow K)) (r' : LnRow K), r' ∈ update_ln rows →
      ∃ r ∈ rows, r' = lnBuffered r ∧ r.counts = "YES" ∧
        ∃ q, r.quantity = some q ∧ r.uom.toUpper = "AC" ∧
          0 < lnGeomLength r.geom) := by
  constructor
  · intro rows r' h
    rcases update_pt_mem_inv h with ⟨r, hrow, hbuf, h2, hp⟩
    rcases Bool.and_eq_true_iff.mp h2 with ⟨hcY, hbs⟩
    have hc : r.counts = "YES" := of_decide_eq_true hcY
    rcases hqv : r.quantity with _ | q
    · rw [ptBufferMeters, hqv] at hbs
      simp at hbs
    · by_cases huom : r.uom = "AC"
      · have hbm : ptBufferMeters M r = M.npSqrt (q * acreSqM K / M.pi) := by
          simp only [ptBufferMeters, hqv, huom, if_true]
        rcases hnp : M.npSqrt (q * acreSqM K / M.pi) with _ | b
        · rw [hbm, hnp] at hbs
          simp at hbs
        · have hbpos : 0 < b := by
            rw [ptPositive, hbm, hnp] at hp
            exact of_decide_eq_true hp
          have harg : 0 < q * acreSqM K / M.pi := hsq _ _ hnp hbpos
          have hq0 : 0 < q := by
            by_contra hqn
            push_neg at hqn
            have : q * acreSqM K / M.pi ≤ 0 :=
              div_nonpos_iff.mpr
                (Or.inr ⟨mul_nonpos_iff.mpr (Or.inr ⟨hqn, le_of_lt acreSqM_pos⟩),
                  le_of_lt hpi⟩)
            exact absurd harg (not_lt.mpr this)
          exact ⟨r, hrow, hbuf, hc, q, hqv, huom, hq0⟩
      · have hbm : ptBufferMeters M r = none := by
          simp only [ptBufferMeters, hqv, huom, if_false]
        rw [hbm] at hbs
        simp at hbs
  · intro rows r' h
    rcases update_ln_mem_inv h with ⟨r, hrow, hbuf, h3, _⟩
    rcases Bool.and_eq_true_iff.mp h3 with ⟨hcY, hbs⟩
    have hc : r.counts = "YES" := of_decide_eq_true hcY
    have hm1 : lnMask1 r = true := lnMask1_of_bufferMeters_isSome hbs
    rcases Bool.and_eq_true_iff.mp hm1 with ⟨hm1a, hlen⟩
    rcases Bool.and_eq_true_iff.mp hm1a with ⟨hqS, huom⟩
    rcases hqv : r.quantity with _ | q
    · rw [hqv] at hqS
      simp at hqS
    · exact ⟨r, hrow, hbuf, hc, q, hqv, of_decide_eq_true huom,
        of_decide_eq_true hlen⟩

/-- C8 witness: the amended statement evaluated on concrete eligible
rows over the rational numeric model: the surviving point and line
records indeed stem from eligible input rows. -/
theorem normalizer_output_only_eligible_witness :
    (∃ r ∈ [ptRowW], ptBuffered sqrtModelQ ptRowW = ptBuffered sqrtModelQ r ∧
      r.counts = "YES" ∧ ∃ q, r.quantity = some q ∧ r.uom = "AC" ∧ 0 < q) ∧
    (∃ r ∈ [lnRowW], lnBuffered lnRowW = lnBuffered r ∧
      r.counts = "YES" ∧ ∃ q, r.quantity = some q ∧ r.uom.toUpper = "AC" ∧
        0 < lnGeomLength r.geom) := by
  have hsq : ∀ x b : ℚ, sqrtModelQ.npSqrt x = some b → 0 < b → 0 < x := by
    intro x b h hb
    by_cases hx : x = 1
    · rw [hx]; norm_num
    · rw [show sqrtModelQ.npSqrt x = if x = 1 then some 1 else none from rfl,
        if_neg hx] at h
      cases h
  have H := normalizer_output_only_eligible sqrtModelQ
    (by norm_num [sqrtModelQ]) hsq
  have hup : ("AC").toUpper = "AC" := by
    simp [String.toUpper, String.map_eq]
  constructor
  · have h2 : ptMask2 sqrtModelQ ptRowW = true := by
      norm_num [ptMask2, ptBufferMeters, sqrtModelQ, acreSqM, ptRowW]
    have hp : ptPositive sqrtModelQ ptRowW = true := by
      norm_num [ptPositive, ptBufferMeters, sqrtModelQ, acreSqM, ptRowW]
    exact H.1 [ptRowW] (ptBuffered sqrtModelQ ptRowW)
      (mem_update_pt_of sqrtModelQ (by simp) h2 hp)
  · have h3 : lnCond3 lnRowW = true := by
      norm_num [lnCond3, lnBufferMeters, lnMask1, hup, lnGeomLength, lnRowW]
    have h4 : lnCond4 lnRowW = true := by
      norm_num [lnCond4, lnBufferMeters, lnMask1, hup, lnGeomLength, lnRowW]
      exact Or.inr (by decide)
    exact H.2 [lnRowW] (lnBuffered lnRowW)
      (mem_update_ln_of (by simp) h3 h4 (by simp [lnRowW]))

/-- C8 counterexample: a point record with a non-acres unit
(`ACTIVITY_UOM = EA`) and `COUNTS_TO_MAS = YES`, and a line record with
a zero-length geometry, are both removed from the respective
normalizer outputs (which are empty), not passed through with their
geometry unchanged, so the claim as frozen is false on the code. -/
theorem normalizer_pass_through_counterexample :
    update_pt sqrtModelQ
        [({ rid := 2, tid := "T3", quantity := some 5, uom := "EA",
            counts := "YES", geom := PtGeom.point } : PtRow ℚ)] = [] ∧
      update_ln
        [({ rid := 3, tid := "T4", year := "2022", quantity := some 5,
            uom := "AC", counts := "YES", source := "WCB",
            geom := LnGeom.line 0 } : LnRow ℚ)] = [] := by
  constructor
  · norm_num [update_pt, ptMask2, ptBufferMeters, List.filter]
  · norm_num [update_ln, lnMask1, lnGeomLength, List.all]

/-! ## C10: the CalTrans wide-buffer cutoff -/

/-- C10: the 200-meter half-width cutoff of `update_ln` applies exactly
to rows whose `Source` is the string `CalTrans`: (1) for every row of
any other source, `condition4` holds regardless of the computed
half-width, so no half-width cutoff is applied to it; (2) a `CalTrans`
row whose computed `BufferMeters` is at least 200 fails `condition4`;
(3) every row of the output stems from an input row that passed
`condition3` and `condition4`, so no `CalTrans` row with half-width at
least 200 survives to the output; (4) every otherwise eligible row
(passing `condition3`) of a source other than `CalTrans` (and other
than `CALTRANS`, whose rows additionally go through the per-treatment
maximum reduction) is present, buffered, in the output, whatever its
half-width. -/
theorem update_ln_caltrans_cutoff {K : Type} [LinearOrderedField K] :
    (∀ r : LnRow K, r.source ≠ "CalTrans" → lnCond4 r = true) ∧
    (∀ (r : LnRow K) (b : K), r.source = "CalTrans" →
      lnBufferMeters r = some b → 200 ≤ b → lnCond4 r = false) ∧
    (∀ (rows : List (LnRow K)) (r' : LnRow K), r' ∈ update_ln rows →
      ∃ r ∈ rows, r' = lnBuffered r ∧ lnCond3 r = true ∧ lnCond4 r = true) ∧
    (∀ (rows : List (LnRow K)) (r : LnRow K), r ∈ rows →
      lnCond3 r = true → r.source ≠ "CalTrans" → r.source ≠ "CALTRANS" →
      lnBuffered r ∈ update_ln rows) := by
  refine ⟨?_, ?_, ?_, ?_⟩
  · intro r hs
    simp [lnCond4, hs]
  · intro r b hs hbm hb
    simp [lnCond4, hbm, hs, hb]
  · intro rows r' h
    exact update_ln_mem_inv h
  · intro rows r hr h3 hs hcal
    have h4 : lnCond4 r = true := by simp [lnCond4, hs]
    exact mem_update_ln_of hr h3 h4 hcal

/-- C10 witness: over the rationals, the cutoff bites on a concrete
CalTrans row with half-width 2023.43 (its `condition4` is false), and
a concrete row of another source with the same half-width survives to
the output of `update_ln`. -/
theorem update_ln_caltrans_cutoff_witness :
    lnCond4 lnRowCalTrans = false ∧
      lnBuffered lnRowW ∈ update_ln [lnRowW] := by
  have hup : ("AC").toUpper = "AC" := by
    simp [String.toUpper, String.map_eq]
  have hbm : lnBufferMeters lnRowCalTrans = some (acreSqM ℚ / 2) := by
    norm_num [lnBufferMeters, lnMask1, hup, lnGeomLength, lnRowCalTrans]
  have h3 : lnCond3 lnRowW = true := by
    norm_num [lnCond3, lnBufferMeters, lnMask1, hup, lnGeomLength, lnRowW]
  constructor
  · exact (@update_ln_caltrans_cutoff ℚ _).2.1 lnRowCalTrans
      (acreSqM ℚ / 2) rfl hbm (by norm_num [acreSqM])
  · exact (@update_ln_caltrans_cutoff ℚ _).2.2.2 [lnRowW] lnRowW
      (by simp) h3 (by simp [lnRowW]) (by simp [lnRowW])

/-! ## C5: scaling of over-reporting polygons -/

theorem cross2_scale (c : Pt2) (s : ℚ) (p0 a b : Pt2) :
    cross2 (scalePoint c s p0) (scalePoint c s a) (scalePoint c s b)
      = s ^ 2 * cross2 p0 a b := by
  simp only [cross2, scalePoint]
  ring

theorem fanSum_scale (c : Pt2) (s : ℚ) (p0 : Pt2) :
    ∀ (rest : List Pt2) (prev : Pt2),
      fanSum (scalePoint c s p0) (scalePoint c s prev)
        (rest.map (scalePoint c s)) = s ^ 2 * fanSum p0 prev rest := by
  intro rest
  induction rest with
  | nil => intro prev; simp [fanSum]
  | cons a t ih =>
    intro prev
    simp only [List.map_cons, fanSum, cross2_scale, ih]
    ring

theorem affinityScaleRing_area (s : ℚ) (ring : List Pt2) :
    ringArea2 (affinityScaleRing s ring) = s ^ 2 * ringArea2 ring := by
  match ring with
  | [] => simp [affinityScaleRing, ringArea2]
  | [p] => simp [affinityScaleRing, ringArea2]
  | p0 :: a :: rest =>
    show ringArea2
        ((p0 :: a :: rest).map (scalePoint (bboxCenter (p0 :: a :: rest)) s))
        = s ^ 2 * ringArea2 (p0 :: a :: rest)
    simp only [List.map_cons, ringArea2]
    exact fanSum_scale _ s p0 rest a

theorem polyArea_map_scale (s ratio : ℚ) (hs : s ^ 2 = ratio)
    (rings : List (List Pt2)) :
    ((rings.map (affinityScaleRing s)).map
        (fun ring => |ringArea2 ring| / 2)).sum
      = ratio * ((rings.map (fun ring => |ringArea2 ring| / 2)).sum) := by
  induction rings with
  | nil => simp
  | cons a t ih =>
    simp only [List.map_cons, List.sum_cons, ih]
    rw [affinityScaleRing_area, abs_mul, abs_of_nonneg (sq_nonneg s), hs]
    ring

/-- C5 (amended): `buffer_overreport_poly` leaves every geometry with
`ACRE_RATIO <= 1` unchanged; when `ACRE_RATIO > 1` it scales the
polygon (each part of a multipolygon separately) by `sqrt(ACRE_RATIO)`
in both axes about the shapely default origin - the center of the
bounding box of the part, not its centroid - and consequently the
scaled geometric area equals `ACRE_RATIO` times the original area,
i.e. the reported quantity in square meters. -/
theorem buffer_overreport_poly_spec (sq : ℚ → ℚ) (ratio : ℚ)
    (g : PolyGeom) :
    (ratio ≤ 1 → buffer_overreport_poly sq ratio g = g) ∧
    (1 < ratio → (sq ratio) ^ 2 = ratio →
      polyArea (buffer_overreport_poly sq ratio g) = ratio * polyArea g) := by
  constructor
  · intro h
    rw [buffer_overreport_poly.eq_def, if_pos h]
  · intro h hsq
    rw [buffer_overreport_poly.eq_def, if_neg (not_le.mpr h)]
    cases g with
    | poly ring =>
      show |ringArea2 (affinityScaleRing (sq ratio) ring)| / 2
          = ratio * (|ringArea2 ring| / 2)
      rw [affinityScaleRing_area, abs_mul, abs_of_nonneg (sq_nonneg _), hsq]
      ring
    | multi rings =>
      show ((rings.map (affinityScaleRing (sq ratio))).map
          (fun ring => |ringArea2 ring| / 2)).sum
          = ratio * ((rings.map (fun ring => |ringArea2 ring| / 2)).sum)
      exact polyArea_map_scale _ _ hsq rings

/-- C5 witness: on the concrete triangle, a ratio of 1/2 leaves the
geometry unchanged, and a ratio of 4 (square root 2) multiplies the
area by 4. -/
theorem buffer_overreport_poly_spec_witness :
    buffer_overreport_poly sqrtAtFour (1/2) (PolyGeom.poly triangleEx)
        = PolyGeom.poly triangleEx ∧
      polyArea (buffer_overreport_poly sqrtAtFour 4 (PolyGeom.poly triangleEx))
        = 4 * polyArea (PolyGeom.poly triangleEx) := by
  constructor
  · exact (buffer_overreport_poly_spec sqrtAtFour (1/2) _).1 (by norm_num)
  · exact (buffer_overreport_poly_spec sqrtAtFour 4 _).2 (by norm_num)
      (by norm_num [sqrtAtFour])

/-- C5 counterexample: on the right triangle (0,0), (4,0), (0,4) with
`ACRE_RATIO = 4`, the source call `affinity.scale(...)` (default
origin: bounding-box center (2,2)) produces the ring
(-2,-2), (6,-2), (-2,6), while scaling about the centroid (4/3,4/3),
as the claim words it, would produce (-4/3,-4/3), (20/3,-4/3),
(-4/3,20/3); the two results differ, so the claim as frozen is false
on the code. -/
theorem buffer_overreport_poly_centroid_counterexample :
    buffer_overreport_poly sqrtAtFour 4 (PolyGeom.poly triangleEx) ≠
      spec_scale_about_centroid sqrtAtFour 4 (PolyGeom.poly triangleEx) := by
  have h1 : buffer_overreport_poly sqrtAtFour 4 (PolyGeom.poly triangleEx)
      = PolyGeom.poly [(-2, -2), (6, -2), (-2, 6)] := by
    norm_num [buffer_overreport_poly, sqrtAtFour, affinityScaleRing,
      bboxCenter, scalePoint, triangleEx, min_def, max_def, List.foldl]
  have h2 : spec_scale_about_centroid sqrtAtFour 4 (PolyGeom.poly triangleEx)
      = PolyGeom.poly [(-4/3, -4/3), (20/3, -4/3), (-4/3, 20/3)] := by
    norm_num [spec_scale_about_centroid, sqrtAtFour, centroidScaleRing,
      ringCentroid, cyclicPairs, scalePoint, triangleEx, List.zip]
  rw [h1, h2]
  intro h
  simp only [PolyGeom.poly.injEq, List.cons.injEq, Prod.mk.injEq] at h
  norm_num at h

/-! ## C7: duplicate removal up to vertex order -/

theorem minimum_congr {A : Type} [LinearOrder A] {l1 l2 : List A}
    (h : ∀ x, x ∈ l1 ↔ x ∈ l2) : l1.minimum = l2.minimum := by
  cases hm : l1.minimum with
  | top =>
    have h1 : l1 = [] := List.minimum_eq_top.mp hm
    have h2 : l2 = [] := by
      cases hl2 : l2 with
      | nil => rfl
      | cons a t =>
        exfalso
        have ha : a ∈ l1 := (h a).mpr (hl2 ▸ List.mem_cons_self a t)
        rw [h1] at ha
        exact List.not_mem_nil a ha
    rw [h2, List.minimum_eq_top.mpr rfl]
  | coe m =>
    rcases List.minimum_eq_coe_iff.mp hm with ⟨hmem, hle⟩
    exact (List.minimum_eq_coe_iff.mpr
      ⟨(h m).mp hmem, fun a ha => hle a ((h a).mpr ha)⟩).symm

theorem canonRing_rotate (r : List PtL) (k : Nat) :
    canonRing (r.rotate k) = canonRing r := by
  have h1 : List.IsRotated (r.rotate k) r := List.IsRotated.forall r k
  have h2 : List.IsRotated (r.rotate k).reverse r.reverse := h1.reverse
  apply minimum_congr
  intro x
  simp only [List.mem_append, List.mem_cyclicPermutations_iff]
  constructor
  · rintro (h | h)
    · exact Or.inl (h.trans h1)
    · exact Or.inr (h.trans h2)
  · rintro (h | h)
    · exact Or.inl (h.trans h1.symm)
    · exact Or.inr (h.trans h2.symm)

theorem canonRing_exists (r : List PtL) :
    ∃ c : List PtL, canonRing r = (c : WithTop (List PtL)) ∧ c.Perm r := by
  cases hc : canonRing r with
  | top =>
    exfalso
    have := List.minimum_eq_top.mp hc
    exact List.cyclicPermutations_ne_nil r (List.append_eq_nil.mp this).1
  | coe c =>
    refine ⟨c, rfl, ?_⟩
    have hmem := List.minimum_mem hc
    rcases List.mem_append.mp hmem with h | h
    · exact (List.mem_cyclicPermutations_iff.mp h).perm
    · exact ((List.mem_cyclicPermutations_iff.mp h).perm).trans
        (List.reverse_perm r)

theorem sum_map_add_int (l : List ℤ) (c : ℤ) :
    (l.map (· + c)).sum = l.sum + l.length * c := by
  induction l with
  | nil => simp
  | cons a t ih =>
    simp only [List.map_cons, List.sum_cons, List.length_cons, ih]
    push_cast
    ring

theorem canonRing_shift_ne (r : List PtL) (d : ℤ × ℤ) (hr : r ≠ [])
    (hd : d ≠ 0) : canonRing (shiftRing d r) ≠ canonRing r := by
  intro heq
  obtain ⟨c, hc, hcp⟩ := canonRing_exists r
  obtain ⟨c', hc', hcp'⟩ := canonRing_exists (shiftRing d r)
  rw [heq, hc] at hc'
  have hcc : c = c' := by
    exact_mod_cast hc'
  rw [← hcc] at hcp'
  have hperm : (shiftRing d r).Perm r := hcp'.symm.trans hcp
  have hx : ((shiftRing d r).map (fun p : PtL => (ofLex p).1)).sum
      = (r.map (fun p : PtL => (ofLex p).1)).sum :=
    (hperm.map (fun p : PtL => (ofLex p).1)).sum_eq
  have hy : ((shiftRing d r).map (fun p : PtL => (ofLex p).2)).sum
      = (r.map (fun p : PtL => (ofLex p).2)).sum :=
    (hperm.map (fun p : PtL => (ofLex p).2)).sum_eq
  have hmx : (shiftRing d r).map (fun p : PtL => (ofLex p).1)
      = (r.map (fun p : PtL => (ofLex p).1)).map (· + d.1) := by
    simp [shiftRing, shiftPt, Function.comp]
  have hmy : (shiftRing d r).map (fun p : PtL => (ofLex p).2)
      = (r.map (fun p : PtL => (ofLex p).2)).map (· + d.2) := by
    simp [shiftRing, shiftPt, Function.comp]
  rw [hmx, sum_map_add_int] at hx
  rw [hmy, sum_map_add_int] at hy
  simp only [List.length_map] at hx hy
  have hlen : (r.length : ℤ) ≠ 0 := by
    simpa using fun h0 => hr (List.length_eq_zero.mp h0)
  have hd1 : d.1 = 0 := by
    have := hx
    have h0 : (r.length : ℤ) * d.1 = 0 := by linarith
    rcases mul_eq_zero.mp h0 with h | h
    · exact absurd h hlen
    · exact h
  have hd2 : d.2 = 0 := by
    have h0 : (r.length : ℤ) * d.2 = 0 := by linarith
    rcases mul_eq_zero.mp h0 with h | h
    · exact absurd h hlen
    · exact h
  exact hd (Prod.ext hd1 hd2)

/-- C7: `remove_duplicates` keys rows by the canonical form of their
geometry (the model of `geom.normalize().wkb`) and keeps the first
occurrence of each key: in a collection containing a ring, a rotation
of that ring (same polygon with the coordinate ring started at a
different vertex) and a translate of the ring by a nonzero offset, the
rotated copy is recognized as a duplicate and removed while the first
occurrence and the shifted geometry are kept. -/
theorem remove_duplicates_canonical (t1 t2 t3 : String) (r : List PtL)
    (k : Nat) (d : ℤ × ℤ) (hr : r ≠ []) (hd : d ≠ 0) :
    remove_duplicates [⟨t1, r⟩, ⟨t2, r.rotate k⟩, ⟨t3, shiftRing d r⟩]
      = [⟨t1, r⟩, ⟨t3, shiftRing d r⟩] := by
  have hrot := canonRing_rotate r k
  have hne := canonRing_shift_ne r d hr hd
  simp [remove_duplicates, removeDupGo, hrot, hne]

/-- C7 witness: the theorem evaluated on the concrete triangle ring
(0,0), (3,0), (0,3), its rotation by one vertex, and its translate by
(5,7). -/
theorem remove_duplicates_canonical_witness :
    remove_duplicates
        [⟨"A", [toLex ((0 : ℤ), (0 : ℤ)), toLex (3, 0), toLex (0, 3)]⟩,
         ⟨"B", ([toLex ((0 : ℤ), (0 : ℤ)), toLex (3, 0), toLex (0, 3)]).rotate 1⟩,
         ⟨"C", shiftRing (5, 7)
            [toLex ((0 : ℤ), (0 : ℤ)), toLex (3, 0), toLex (0, 3)]⟩]
      = [⟨"A", [toLex ((0 : ℤ), (0 : ℤ)), toLex (3, 0), toLex (0, 3)]⟩,
         ⟨"C", shiftRing (5, 7)
            [toLex ((0 : ℤ), (0 : ℤ)), toLex (3, 0), toLex (0, 3)]⟩] := by
  exact remove_duplicates_canonical "A" "B" "C" _ 1 (5, 7)
    (by simp) (by simp)

/-! ## C6: the recursive NOP decomposer -/

theorem get_NOP_recur_eq (fuel : Nat) (g1 g2 : List Feat) :
    get_NOP_recur fuel g1 g2 =
      if (tempNOP g1 g2).length ≤ 1 then
        NOPResult.nested [NOPResult.frame (g1.filter featIsPoly)]
      else
        match fuel with
        | 0 => NOPResult.nested []
        | fuel' + 1 =>
          NOPResult.nested
            ((List.range (tempNOP g1 g2).length).map (fun i =>
              get_NOP_recur fuel' [(tempNOP g1 g2).getD i default]
                ((tempNOP g1 g2).eraseIdx i))) := by
  cases fuel <;> rfl

theorem mem_NOPLeavesList {g : List Feat} :
    ∀ {l : List NOPResult},
      g ∈ NOPLeavesList l ↔ ∃ x ∈ l, g ∈ NOPLeaves x := by
  intro l
  induction l with
  | nil => simp [NOPLeavesList]
  | cons a t ih => simp [NOPLeavesList, List.mem_append, ih]

theorem NOPLeaves_poly :
    ∀ (fuel : Nat) (g1 g2 : List Feat) (g : List Feat),
      g ∈ NOPLeaves (get_NOP_recur fuel g1 g2) →
      ∀ f ∈ g, featIsPoly f = true := by
  intro fuel
  induction fuel with
  | zero =>
    intro g1 g2 g hg
    rw [get_NOP_recur_eq] at hg
    by_cases h : (tempNOP g1 g2).length ≤ 1
    · rw [if_pos h] at hg
      simp [NOPLeaves, NOPLeavesList] at hg
      intro f hf
      exact (List.mem_filter.mp (hg ▸ hf)).2
    · rw [if_neg h] at hg
      simp [NOPLeaves, NOPLeavesList] at hg
  | succ n ih =>
    intro g1 g2 g hg
    rw [get_NOP_recur_eq] at hg
    by_cases h : (tempNOP g1 g2).length ≤ 1
    · rw [if_pos h] at hg
      simp [NOPLeaves, NOPLeavesList] at hg
      intro f hf
      exact (List.mem_filter.mp (hg ▸ hf)).2
    · rw [if_neg h] at hg
      simp only [NOPLeaves] at hg
      rcases mem_NOPLeavesList.mp hg with ⟨x, hx, hgx⟩
      rcases List.mem_map.mp hx with ⟨i, hi, rfl⟩
      exact ih _ _ g hgx

/-- C6 (amended): the recursive decomposer computes the intersection
and difference overlays restricted to polygon/multipolygon geometry;
when the combined result has at most one element it returns (a
singleton list whose element is) the polygon-filtered target set,
which equals the target set unchanged exactly when the target is
already purely polygonal; otherwise it recurses once per element of
the combined result, with that element as the new target and the
remaining elements as its neighbor set, and returns the nested,
un-flattened list of the recursive results (the caller `get_NOP_mp`
flattens); moreover every GeoDataFrame at a leaf of the returned tree
consists of polygonal features only. -/
theorem get_NOP_recur_spec :
    (∀ (fuel : Nat) (g1 g2 : List Feat),
      (tempNOP g1 g2).length ≤ 1 →
      get_NOP_recur fuel g1 g2
        = NOPResult.nested [NOPResult.frame (g1.filter featIsPoly)]) ∧
    (∀ (fuel : Nat) (g1 g2 : List Feat),
      (∀ f ∈ g1, featIsPoly f = true) → (tempNOP g1 g2).length ≤ 1 →
      get_NOP_recur fuel g1 g2 = NOPResult.nested [NOPResult.frame g1]) ∧
    (∀ (fuel : Nat) (g1 g2 : List Feat),
      2 ≤ (tempNOP g1 g2).length →
      get_NOP_recur (fuel + 1) g1 g2
        = NOPResult.nested
            ((List.range (tempNOP g1 g2).length).map (fun i =>
              get_NOP_recur fuel [(tempNOP g1 g2).getD i default]
                ((tempNOP g1 g2).eraseIdx i)))) ∧
    (∀ (fuel : Nat) (g1 g2 : List Feat) (g : List Feat),
      g ∈ NOPLeaves (get_NOP_recur fuel g1 g2) →
      ∀ f ∈ g, featIsPoly f = true) := by
  refine ⟨?_, ?_, ?_, NOPLeaves_poly⟩
  · intro fuel g1 g2 h
    rw [get_NOP_recur_eq, if_pos h]
  · intro fuel g1 g2 hpoly h
    rw [get_NOP_recur_eq, if_pos h, List.filter_eq_self.mpr hpoly]
  · intro fuel g1 g2 h
    rw [get_NOP_recur_eq, if_neg (by omega)]

/-- C6 witness: the amended statement evaluated on a concrete purely
polygonal target (one polygon, disjoint from the single neighbor, so
the combined overlay has one element): the target set is returned
unchanged, and the leaf is purely polygonal. -/
theorem get_NOP_recur_spec_witness :
    get_NOP_recur 7 [({ tid := "A", gt := GType.polygon, geom := {0} } : Feat)]
        [({ tid := "B", gt := GType.polygon, geom := {5} } : Feat)]
      = NOPResult.nested [NOPResult.frame
          [({ tid := "A", gt := GType.polygon, geom := {0} } : Feat)]] ∧
      featIsPoly ({ tid := "A", gt := GType.polygon, geom := {0} } : Feat)
        = true := by
  constructor
  · exact get_NOP_recur_spec.2.1 7 _ _ (by decide) (by decide)
  · exact get_NOP_recur_spec.2.2.2 7
      [({ tid := "A", gt := GType.polygon, geom := {0} } : Feat)]
      [({ tid := "B", gt := GType.polygon, geom := {5} } : Feat)]
      [({ tid := "A", gt := GType.polygon, geom := {0} } : Feat)]
      (by decide) _ (by decide)

/-- C6 counterexample: a target set holding one polygon and one line
feature, against a disjoint polygonal neighbor: the combined overlay
result has one element, but `get_NOP_recur` returns only the
polygon-filtered target (the line feature is gone), not the target set
unchanged as the claim states. -/
theorem get_NOP_recur_counterexample :
    get_NOP_recur 7
        [({ tid := "A", gt := GType.polygon, geom := {0} } : Feat),
         ({ tid := "L", gt := GType.lineString, geom := {9} } : Feat)]
        [({ tid := "B", gt := GType.polygon, geom := {5} } : Feat)]
      = NOPResult.nested [NOPResult.frame
          [({ tid := "A", gt := GType.polygon, geom := {0} } : Feat)]] ∧
      [({ tid := "A", gt := GType.polygon, geom := {0} } : Feat)] ≠
        [({ tid := "A", gt := GType.polygon, geom := {0} } : Feat),
         ({ tid := "L", gt := GType.lineString, geom := {9} } : Feat)] := by
  exact ⟨by rfl, by decide⟩

/-! ## C1 and C3: the planar-subdivision resolver output -/

/-- C1 (amended): for every year, the intermediate arrangement faces
(the `Spaghetti_FeatureToPolygon` layer) are pairwise non-overlapping:
distinct faces share no cell; but the features emitted in the final
`Footprint_Report` layer are rows of the `original` dissolved layer
(or timber rows), carrying the original dissolved-treatment
geometries, which may overlap pairwise. -/
theorem footprint_faces_disjoint_and_cells_original {Q : Type}
    [LinearOrder Q] :
    (∀ (geoms : List (List Nat)) (f1 f2 : List Nat),
      f1 ∈ featureToPolygon geoms → f2 ∈ featureToPolygon geoms → f1 ≠ f2 →
      ∀ c, c ∈ f1 → c ∉ f2) ∧
    (∀ (dissolved timber : List (DisFeat Q)) (r : DisFeat Q),
      r ∈ get_footprint_p2 dissolved timber → r ∈ dissolved ∨ r ∈ timber) := by
  constructor
  · intro geoms f1 f2 h1 h2 hne c hc1 hc2
    simp only [featureToPolygon] at h1 h2
    rcases List.mem_map.mp (List.mem_dedup.mp h1) with ⟨c1, _, rfl⟩
    rcases List.mem_map.mp (List.mem_dedup.mp h2) with ⟨c2, _, rfl⟩
    have hs1 : sigOf geoms c = sigOf geoms c1 :=
      of_decide_eq_true (List.mem_filter.mp hc1).2
    have hs2 : sigOf geoms c = sigOf geoms c2 :=
      of_decide_eq_true (List.mem_filter.mp hc2).2
    have hs12 : sigOf geoms c1 = sigOf geoms c2 := hs1 ▸ hs2
    exact hne (by rw [hs12])
  · intro dissolved timber r h
    simp only [get_footprint_p2] at h
    rcases List.mem_append.mp h with hl | hr
    · rcases List.mem_filterMap.mp hl with ⟨s, _, hfind⟩
      exact Or.inl (List.mem_of_find?_eq_some hfind)
    · exact Or.inr hr

/-- C1 witness: on the two overlapping inputs with cells `[0,1]` and
`[1,2]`, the faces `[0]` and `[1]` of the arrangement are disjoint,
and the emitted row for treatment A is one of the original dissolved
rows. -/
theorem footprint_faces_disjoint_witness :
    ((0 : Nat) ∉ ([1] : List Nat)) ∧
      (({ tid := "A", qty := (10 : ℤ), geom := [0, 1] } : DisFeat ℤ) ∈
          [({ tid := "A", qty := (10 : ℤ), geom := [0, 1] } : DisFeat ℤ),
           ({ tid := "B", qty := (25 : ℤ), geom := [1, 2] } : DisFeat ℤ)] ∨
        ({ tid := "A", qty := (10 : ℤ), geom := [0, 1] } : DisFeat ℤ) ∈
          ([] : List (DisFeat ℤ))) := by
  constructor
  · exact (@footprint_faces_disjoint_and_cells_original ℤ _).1
      [[0, 1], [1, 2]] [0] [1] (by decide) (by decide) (by decide) 0 (by decide)
  · exact (@footprint_faces_disjoint_and_cells_original ℤ _).2
      [({ tid := "A", qty := (10 : ℤ), geom := [0, 1] } : DisFeat ℤ),
       ({ tid := "B", qty := (25 : ℤ), geom := [1, 2] } : DisFeat ℤ)] []
      ({ tid := "A", qty := (10 : ℤ), geom := [0, 1] } : DisFeat ℤ)
      (by decide)

/-- C1 counterexample: two dissolved treatments with overlapping
geometries `[0,1]` and `[1,2]` both survive `get_footprint_p2`
(each representative point claims a face), and the emitted Footprint
Cells are the two original geometries, which are distinct features
sharing cell 1 - a positive-area interior overlap.  The claim of
pairwise non-overlap of the emitted cells is therefore false on the
code. -/
theorem get_footprint_p2_overlap_counterexample :
    get_footprint_p2
        [({ tid := "A", qty := (10 : ℤ), geom := [0, 1] } : DisFeat ℤ),
         ({ tid := "B", qty := (25 : ℤ), geom := [1, 2] } : DisFeat ℤ)] []
      = [({ tid := "A", qty := (10 : ℤ), geom := [0, 1] } : DisFeat ℤ),
         ({ tid := "B", qty := (25 : ℤ), geom := [1, 2] } : DisFeat ℤ)] ∧
      ({ tid := "A", qty := (10 : ℤ), geom := [0, 1] } : DisFeat ℤ) ≠
        ({ tid := "B", qty := (25 : ℤ), geom := [1, 2] } : DisFeat ℤ) ∧
      ([0, 1] : List Nat).filter (fun c => ([1, 2] : List Nat).contains c)
        = [1] := by
  refine ⟨by decide, by decide, by decide⟩

/-- C3: evaluating `get_footprint_p2` at two dissolved treatments, A
with quantity 10 and geometry `[0,1]` fully inside B with quantity 25
and geometry `[0,1,2]`.  The only face claimed by A (the face
`[0,1]`) is also claimed by B, yet the output contains the
lower-quantity treatment A as well: the `drop_duplicates` of line 331
keys on `TRMTID_USER`, which is unique per treatment, so no
lower-quantity claim is ever dropped - contradicting the comment
above it (`keep max value of each NOP`), the claim, and the concrete
scenario of the spec. -/
theorem get_footprint_p2_keeps_low_quantity_claim :
    get_footprint_p2
        [({ tid := "A", qty := (10 : ℤ), geom := [0, 1] } : DisFeat ℤ),
         ({ tid := "B", qty := (25 : ℤ), geom := [0, 1, 2] } : DisFeat ℤ)] []
      = [({ tid := "A", qty := (10 : ℤ), geom := [0, 1] } : DisFeat ℤ),
         ({ tid := "B", qty := (25 : ℤ), geom := [0, 1, 2] } : DisFeat ℤ)] := by
  decide
